import Mathlib

/-!
Verification of the video verticalization pipeline
(segmentation - crop - concatenation) against its specification.

The definitions below are a shallow embedding of the Python sources:
  src/utils.py           (timestamp_to_seconds, create_video_segments,
                          concatenate_segments, process_video_segments)
  src/gcp_transcoder.py  (create_cropped_segment_job, create_concat_job,
                          _wait_for_job_completion)
  video-vert.py          (verticalize_one_video segment construction)

Numbers: Python floats are modelled as rationals (all values that occur -
m*60 + s + ms/1000, 9/16 multiples, differences of those - are exact in
both models); Python ints as Int/Nat.  A raised exception is modelled as
the none / error branch of Option / Except.
-/

namespace VideoVert

/-- ASCII digit test, modelling the regex character class for a digit.
(The Python regex also accepts non-ASCII unicode digits; the claims under
study only concern ASCII inputs, which this model covers exactly.) -/
def isDigitChar (c : Char) : Bool := 48 ≤ c.toNat && c.toNat ≤ 57

/-- Numeric value of an ASCII digit character. -/
def digitVal (c : Char) : Nat := c.toNat - 48

/-- Embedding of the regex match in timestamp_to_seconds (utils.py line 178):
re.match anchors at the start of the string only, so exactly the first nine
characters are inspected (MM:SS.mmm) and any trailing characters are
ignored.  Returns the captured (minutes, seconds, milliseconds). -/
def matchTimestamp : List Char → Option (Nat × Nat × Nat)
  | c0 :: c1 :: c2 :: c3 :: c4 :: c5 :: c6 :: c7 :: c8 :: _ =>
    if isDigitChar c0 && isDigitChar c1 && c2 == ':' && isDigitChar c3 && isDigitChar c4
        && c5 == '.' && isDigitChar c6 && isDigitChar c7 && isDigitChar c8 then
      some (10 * digitVal c0 + digitVal c1,
            10 * digitVal c3 + digitVal c4,
            100 * digitVal c6 + 10 * digitVal c7 + digitVal c8)
    else
      none
  | _ => none

/-- utils.py timestamp_to_seconds: MM:SS.mmm to seconds.  The none result
models the raised ValueError (Invalid timestamp format). -/
def timestampToSeconds (ts : String) : Option ℚ :=
  match matchTimestamp ts.data with
  | some (m, s, ms) => some ((m : ℚ) * 60 + (s : ℚ) + (ms : ℚ) / 1000)
  | none => none

/-- Canonical digit character for a value below ten. -/
def digitChar (n : ℕ) : Char := Char.ofNat (48 + n)

/-- The nine characters of a canonically rendered MM:SS.mmm timestamp. -/
def fmtChars (m s ms : ℕ) : List Char :=
  [digitChar (m / 10), digitChar (m % 10), ':',
   digitChar (s / 10), digitChar (s % 10), '.',
   digitChar (ms / 100), digitChar (ms / 10 % 10), digitChar (ms % 10)]

/-- A canonically rendered MM:SS.mmm timestamp string. -/
def fmtTimestamp (m s ms : ℕ) : String := String.mk (fmtChars m s ms)

lemma isDigitChar_digitChar {n : ℕ} (h : n ≤ 9) : isDigitChar (digitChar n) = true := by
  interval_cases n <;> decide

lemma digitVal_digitChar {n : ℕ} (h : n ≤ 9) : digitVal (digitChar n) = n := by
  interval_cases n <;> decide

lemma digitVal_le_of_isDigitChar {c : Char} (h : isDigitChar c = true) : digitVal c ≤ 9 := by
  simp only [isDigitChar, Bool.and_eq_true, decide_eq_true_eq] at h
  simp only [digitVal]
  omega

/-- The regex accepts a canonical timestamp prefix and captures its fields,
no matter what follows it. -/
lemma matchTimestamp_fmtChars (m s ms : ℕ) (hm : m ≤ 99) (hs : s ≤ 99) (hms : ms ≤ 999)
    (rest : List Char) :
    matchTimestamp (fmtChars m s ms ++ rest) = some (m, s, ms) := by
  have h1 : m / 10 ≤ 9 := by omega
  have h2 : m % 10 ≤ 9 := by omega
  have h3 : s / 10 ≤ 9 := by omega
  have h4 : s % 10 ≤ 9 := by omega
  have h5 : ms / 100 ≤ 9 := by omega
  have h6 : ms / 10 % 10 ≤ 9 := by omega
  have h7 : ms % 10 ≤ 9 := by omega
  simp only [fmtChars, List.cons_append, List.nil_append, matchTimestamp,
    isDigitChar_digitChar h1, isDigitChar_digitChar h2, isDigitChar_digitChar h3,
    isDigitChar_digitChar h4, isDigitChar_digitChar h5, isDigitChar_digitChar h6,
    isDigitChar_digitChar h7, digitVal_digitChar h1, digitVal_digitChar h2,
    digitVal_digitChar h3, digitVal_digitChar h4, digitVal_digitChar h5,
    digitVal_digitChar h6, digitVal_digitChar h7, beq_self_eq_true, Bool.and_self,
    Bool.true_and, Bool.and_true, if_true, Option.some.injEq, Prod.mk.injEq]
  refine ⟨by omega, by omega, by omega⟩

/-- Evaluation helper: a successful regex match determines the parser value. -/
lemma timestampToSeconds_eval (ts : String) (m s ms : ℕ)
    (h : matchTimestamp ts.data = some (m, s, ms)) :
    timestampToSeconds ts = some ((m : ℚ) * 60 + (s : ℚ) + (ms : ℚ) / 1000) := by
  simp [timestampToSeconds, h]

example : timestampToSeconds ("00:05.500") = some (11 / 2 : ℚ) := by
  rw [timestampToSeconds_eval _ 0 5 500 (by decide)]; norm_num
example : timestampToSeconds ("61:00.000") = some (3660 : ℚ) := by
  rw [timestampToSeconds_eval _ 61 0 0 (by decide)]; norm_num
example : timestampToSeconds ("5.5") = none := by decide
example : timestampToSeconds ("00:5.5") = none := by decide
example : timestampToSeconds ("00:05.500abc") = some (11 / 2 : ℚ) := by
  rw [timestampToSeconds_eval _ 0 5 500 (by decide)]; norm_num
example : timestampToSeconds ("99:99.999") = some (6039999 / 1000 : ℚ) := by
  rw [timestampToSeconds_eval _ 99 99 999 (by decide)]; norm_num

/-- Inversion: a successful match exposes the nine examined characters,
their digit tests, and the computed capture values. -/
lemma matchTimestamp_some {l : List Char} {m s ms : ℕ}
    (h : matchTimestamp l = some (m, s, ms)) :
    ∃ c0 c1 c2 c3 c4 c5 c6 c7 c8 rest,
      l = c0 :: c1 :: c2 :: c3 :: c4 :: c5 :: c6 :: c7 :: c8 :: rest ∧
      isDigitChar c0 = true ∧ isDigitChar c1 = true ∧
      isDigitChar c3 = true ∧ isDigitChar c4 = true ∧
      isDigitChar c6 = true ∧ isDigitChar c7 = true ∧ isDigitChar c8 = true ∧
      m = 10 * digitVal c0 + digitVal c1 ∧
      s = 10 * digitVal c3 + digitVal c4 ∧
      ms = 100 * digitVal c6 + 10 * digitVal c7 + digitVal c8 := by
  rcases l with _ | ⟨c0, _ | ⟨c1, _ | ⟨c2, _ | ⟨c3, _ | ⟨c4, _ | ⟨c5, _ | ⟨c6, _ | ⟨c7, _ | ⟨c8, rest⟩⟩⟩⟩⟩⟩⟩⟩⟩ <;>
    simp only [matchTimestamp, reduceCtorEq] at h
  split at h
  case isTrue hg =>
    simp only [Bool.and_eq_true] at hg
    obtain ⟨⟨⟨⟨⟨⟨⟨⟨h0, h1⟩, _⟩, h3⟩, h4⟩, _⟩, h6⟩, h7⟩, h8⟩ := hg
    obtain ⟨hm, hs, hms⟩ : m = _ ∧ s = _ ∧ ms = _ := by
      have := h.symm
      simp only [Option.some.injEq, Prod.mk.injEq] at this
      exact ⟨this.1, this.2.1, this.2.2⟩
    exact ⟨c0, c1, c2, c3, c4, c5, c6, c7, c8, rest, rfl,
      h0, h1, h3, h4, h6, h7, h8, hm, hs, hms⟩
  case isFalse => exact absurd h (by simp)

/-- A string shorter than the nine pattern characters is rejected. -/
lemma matchTimestamp_short {l : List Char} (h : l.length < 9) :
    matchTimestamp l = none := by
  rcases l with _ | ⟨c0, _ | ⟨c1, _ | ⟨c2, _ | ⟨c3, _ | ⟨c4, _ | ⟨c5, _ | ⟨c6, _ | ⟨c7, _ | ⟨c8, rest⟩⟩⟩⟩⟩⟩⟩⟩⟩ <;>
    first
      | rfl
      | (exfalso; simp only [List.length_cons] at h; omega)

/-- A string whose first character is not a digit is rejected. -/
lemma matchTimestamp_head_not_digit {c : Char} (hc : isDigitChar c = false)
    (l : List Char) : matchTimestamp (c :: l) = none := by
  rcases l with _ | ⟨c1, _ | ⟨c2, _ | ⟨c3, _ | ⟨c4, _ | ⟨c5, _ | ⟨c6, _ | ⟨c7, _ | ⟨c8, rest⟩⟩⟩⟩⟩⟩⟩⟩ <;>
    simp [matchTimestamp, hc]

/-- Captured fields are bounded by their digit widths. -/
lemma matchTimestamp_bounds {l : List Char} {m s ms : ℕ}
    (h : matchTimestamp l = some (m, s, ms)) : m ≤ 99 ∧ s ≤ 99 ∧ ms ≤ 999 := by
  obtain ⟨c0, c1, c2, c3, c4, c5, c6, c7, c8, rest, -, h0, h1, h3, h4, h6, h7, h8,
    hm, hs, hms⟩ := matchTimestamp_some h
  have b0 := digitVal_le_of_isDigitChar h0
  have b1 := digitVal_le_of_isDigitChar h1
  have b3 := digitVal_le_of_isDigitChar h3
  have b4 := digitVal_le_of_isDigitChar h4
  have b6 := digitVal_le_of_isDigitChar h6
  have b7 := digitVal_le_of_isDigitChar h7
  have b8 := digitVal_le_of_isDigitChar h8
  omega

lemma string_data_append (a t : String) : (a ++ t).data = a.data ++ t.data := by
  cases a; cases t; rfl

/-- C5: the timestamp parser maps every well-formed MM:SS.mmm string
(2-digit minutes m, 2-digit seconds s, 3-digit milliseconds ms) to
m * 60 + s + ms / 1000; in particular parse of 00:05.500 is 5.5 and parse
of 61:00.000 is 3660.0. -/
theorem claim5_parse_wellformed :
    (∀ m s ms : ℕ, m ≤ 99 → s ≤ 99 → ms ≤ 999 →
      timestampToSeconds (fmtTimestamp m s ms) =
        some ((m : ℚ) * 60 + (s : ℚ) + (ms : ℚ) / 1000)) ∧
    timestampToSeconds ("00:05.500") = some (11 / 2 : ℚ) ∧
    timestampToSeconds ("61:00.000") = some (3660 : ℚ) := by
  refine ⟨fun m s ms hm hs hms => ?_, ?_, ?_⟩
  · refine timestampToSeconds_eval _ m s ms ?_
    show matchTimestamp (fmtChars m s ms) = some (m, s, ms)
    simpa using matchTimestamp_fmtChars m s ms hm hs hms []
  · rw [timestampToSeconds_eval _ 0 5 500 (by decide)]; norm_num
  · rw [timestampToSeconds_eval _ 61 0 0 (by decide)]; norm_num

theorem claim5_witness :
    timestampToSeconds (fmtTimestamp 0 5 500) =
      some ((0 : ℚ) * 60 + (5 : ℚ) + (500 : ℚ) / 1000) :=
  claim5_parse_wellformed.1 0 5 500 (by norm_num) (by norm_num) (by norm_num)

/-- C6 counterexample: the source regex is anchored only at the start of
the string (re.match with no end anchor), so a string with extra trailing
characters is parsed from its matching prefix rather than rejected -
refuting that every non-exactly-matching input fails. -/
theorem claim6_counterexample :
    timestampToSeconds ("00:05.500abc") = some (11 / 2 : ℚ) := by
  rw [timestampToSeconds_eval _ 0 5 500 (by decide)]; norm_num

/-- C6 (amended): the parser rejects every string whose nine-character
prefix fails the MM:SS.mmm pattern - in particular any string shorter than
nine characters, any string starting with a sign, and an hour component in
place of the millisecond separator - but it does not reject trailing extra
characters: any suffix appended to a well-formed timestamp is ignored and
the prefix is parsed. -/
theorem claim6_prefix_anchored :
    (∀ (m s ms : ℕ) (t : String), m ≤ 99 → s ≤ 99 → ms ≤ 999 →
      timestampToSeconds (fmtTimestamp m s ms ++ t) =
        some ((m : ℚ) * 60 + (s : ℚ) + (ms : ℚ) / 1000)) ∧
    (∀ ts : String, ts.length < 9 → timestampToSeconds ts = none) ∧
    (∀ t : String, timestampToSeconds (("-") ++ t) = none) ∧
    timestampToSeconds ("01:02:03.456") = none := by
  refine ⟨fun m s ms t hm hs hms => ?_, fun ts h => ?_, fun t => ?_, by decide⟩
  · refine timestampToSeconds_eval _ m s ms ?_
    rw [string_data_append]
    exact matchTimestamp_fmtChars m s ms hm hs hms t.data
  · have hlen : ts.data.length < 9 := h
    simp [timestampToSeconds, matchTimestamp_short hlen]
  · have hdata : (("-") ++ t).data = Char.ofNat 45 :: t.data := by
      rw [string_data_append]; rfl
    simp [timestampToSeconds, hdata,
      matchTimestamp_head_not_digit (c := Char.ofNat 45) (by decide)]

theorem claim6_witness : timestampToSeconds ("abc") = none :=
  claim6_prefix_anchored.2.1 ("abc") (by decide)

/-- C10 counterexample: the claimed upper bound 5999.999 is wrong - the
two-digit seconds field also admits values 60..99, so 99:99.999 is
accepted with value 6039.999, which exceeds 5999.999. -/
theorem claim10_counterexample :
    timestampToSeconds ("99:99.999") = some (6039999 / 1000 : ℚ) ∧
    (5999999 / 1000 : ℚ) < 6039999 / 1000 := by
  constructor
  · rw [timestampToSeconds_eval _ 99 99 999 (by decide)]; norm_num
  · norm_num

/-- C10 (amended): the parser accepts any two-digit seconds field 00..99,
for example 00:75.000 parses to 75.0; every accepted input yields a
non-negative value bounded above by 6039.999 (the value of 99:99.999). -/
theorem claim10_seconds_range :
    timestampToSeconds ("00:75.000") = some (75 : ℚ) ∧
    (∀ (ts : String) (v : ℚ), timestampToSeconds ts = some v →
      0 ≤ v ∧ v ≤ 6039999 / 1000) := by
  constructor
  · rw [timestampToSeconds_eval _ 0 75 0 (by decide)]; norm_num
  · intro ts v hv
    unfold timestampToSeconds at hv
    rcases hmt : matchTimestamp ts.data with _ | ⟨⟨m, s, ms⟩⟩
    · rw [hmt] at hv; exact absurd hv (by simp)
    · rw [hmt] at hv
      simp only [Option.some.injEq] at hv
      obtain ⟨hm, hs, hms⟩ := matchTimestamp_bounds hmt
      have hmq : (m : ℚ) ≤ 99 := by exact_mod_cast hm
      have hsq : (s : ℚ) ≤ 99 := by exact_mod_cast hs
      have hmsq : (ms : ℚ) ≤ 999 := by exact_mod_cast hms
      rw [← hv]
      constructor
      · positivity
      · linarith

theorem claim10_witness : 0 ≤ (75 : ℚ) ∧ (75 : ℚ) ≤ 6039999 / 1000 :=
  claim10_seconds_range.2 ("00:75.000") 75 (by
    rw [timestampToSeconds_eval _ 0 75 0 (by decide)]; norm_num)

/-- One entry of the crop-data JSON: a timestamp string, the horizontal
crop offset x1 and a free-text reason (utils.py lines 204, 216-217). -/
structure Keyframe where
  timestamp : String
  x1 : Int
  reason : String
deriving DecidableEq

/-- One planned segment (utils.py lines 213-218): start seconds, optional
end seconds (none for the open-ended final segment, source field end),
crop offset and reason. -/
structure Segment where
  start : ℚ
  stop : Option ℚ
  x1 : Int
  reason : String
deriving DecidableEq

/-- Embedding of the segment-planning loop of create_video_segments
(utils.py lines 201-218, identical in video-vert.py lines 77-86): for each
keyframe the start is its parsed timestamp and the end is the next
keyframe's parsed timestamp, or none for the last keyframe.  A parse
failure (ValueError) is modelled by the none result. -/
def planSegmentsAux : List Keyframe → Option (List Segment)
  | [] => some []
  | [k] =>
    match timestampToSeconds k.timestamp with
    | some t => some [⟨t, none, k.x1, k.reason⟩]
    | none => none
  | k :: k2 :: rest =>
    match timestampToSeconds k.timestamp, timestampToSeconds k2.timestamp,
        planSegmentsAux (k2 :: rest) with
    | some t, some t2, some segs => some (⟨t, some t2, k.x1, k.reason⟩ :: segs)
    | _, _, _ => none

/-- The parsed timestamps of a keyframe list, in order; none if any parse
fails (models the ValueError propagating out of the planning loop). -/
def parseTimes : List Keyframe → Option (List ℚ)
  | [] => some []
  | k :: rest =>
    match timestampToSeconds k.timestamp, parseTimes rest with
    | some t, some ts => some (t :: ts)
    | _, _ => none

/-- If every timestamp parses, planning succeeds. -/
lemma planSegmentsAux_isSome (kfs : List Keyframe) (times : List ℚ)
    (h : parseTimes kfs = some times) :
    ∃ segs, planSegmentsAux kfs = some segs := by
  induction kfs generalizing times with
  | nil => exact ⟨[], rfl⟩
  | cons k rest ih =>
    rcases hk : timestampToSeconds k.timestamp with _ | t <;>
      rcases hrest : parseTimes rest with _ | ts <;>
      simp only [parseTimes, hk, hrest, Option.some.injEq, reduceCtorEq] at h
    cases rest with
    | nil => exact ⟨[⟨t, none, k.x1, k.reason⟩], by simp [planSegmentsAux, hk]⟩
    | cons k2 rest2 =>
      obtain ⟨segs, hsegs⟩ := ih ts hrest
      rcases hk2 : timestampToSeconds k2.timestamp with _ | t2 <;>
        rcases hp2 : parseTimes rest2 with _ | ts2 <;>
        simp only [parseTimes, hk2, hp2, Option.some.injEq, reduceCtorEq] at hrest
      exact ⟨⟨t, some t2, k.x1, k.reason⟩ :: segs,
        by simp [planSegmentsAux, hk, hk2, hsegs]⟩

/-- Planning yields exactly one segment per keyframe. -/
lemma planSegmentsAux_length (kfs : List Keyframe) (segs : List Segment)
    (h : planSegmentsAux kfs = some segs) : segs.length = kfs.length := by
  induction kfs generalizing segs with
  | nil =>
    simp only [planSegmentsAux, Option.some.injEq] at h
    simp [← h]
  | cons k rest ih =>
    cases rest with
    | nil =>
      rcases hk : timestampToSeconds k.timestamp with _ | t <;>
        simp only [planSegmentsAux, hk, Option.some.injEq, reduceCtorEq] at h
      subst h
      rfl
    | cons k2 rest2 =>
      rcases hk : timestampToSeconds k.timestamp with _ | t <;>
        rcases hk2 : timestampToSeconds k2.timestamp with _ | t2 <;>
        rcases hr : planSegmentsAux (k2 :: rest2) with _ | segs2 <;>
        simp only [planSegmentsAux, hk, hk2, hr, Option.some.injEq, reduceCtorEq] at h
      subst h
      simp [ih segs2 hr]

/-- Segment i's start is the parsed timestamp of keyframe i, and segment i
carries keyframe i's crop offset and reason (keyframe order preserved). -/
lemma planSegmentsAux_start (kfs : List Keyframe) (segs : List Segment)
    (h : planSegmentsAux kfs = some segs) :
    ∀ (i : ℕ) (k : Keyframe) (a : Segment), kfs[i]? = some k → segs[i]? = some a →
      timestampToSeconds k.timestamp = some a.start ∧ a.x1 = k.x1 ∧ a.reason = k.reason := by
  induction kfs generalizing segs with
  | nil =>
    intro i k a hk _
    exact absurd hk (by simp)
  | cons k0 rest ih =>
    cases rest with
    | nil =>
      rcases hk0 : timestampToSeconds k0.timestamp with _ | t <;>
        simp only [planSegmentsAux, hk0, Option.some.injEq, reduceCtorEq] at h
      subst h
      intro i k a hk ha
      cases i with
      | zero =>
        simp only [List.getElem?_cons_zero, Option.some.injEq] at hk ha
        rw [← ha, ← hk]
        exact ⟨hk0, rfl, rfl⟩
      | succ j => exact absurd ha (by simp)
    | cons k2 rest2 =>
      rcases hk0 : timestampToSeconds k0.timestamp with _ | t <;>
        rcases hk2 : timestampToSeconds k2.timestamp with _ | t2 <;>
        rcases hr : planSegmentsAux (k2 :: rest2) with _ | segs2 <;>
        simp only [planSegmentsAux, hk0, hk2, hr, Option.some.injEq, reduceCtorEq] at h
      subst h
      intro i k a hk ha
      cases i with
      | zero =>
        simp only [List.getElem?_cons_zero, Option.some.injEq] at hk ha
        rw [← ha, ← hk]
        exact ⟨hk0, rfl, rfl⟩
      | succ j =>
        simp only [List.getElem?_cons_succ] at hk ha
        exact ih segs2 hr j k a hk ha

/-- The head segment of a successful plan starts at the parsed timestamp
of the head keyframe. -/
lemma planSegmentsAux_head (k : Keyframe) (rest : List Keyframe) (segs : List Segment)
    (h : planSegmentsAux (k :: rest) = some segs) :
    ∃ a tl, segs = a :: tl ∧ timestampToSeconds k.timestamp = some a.start := by
  cases rest with
  | nil =>
    rcases hk : timestampToSeconds k.timestamp with _ | t <;>
      simp only [planSegmentsAux, hk, Option.some.injEq, reduceCtorEq] at h
    exact ⟨_, _, h.symm, rfl⟩
  | cons k2 rest2 =>
    rcases hk : timestampToSeconds k.timestamp with _ | t <;>
      rcases hk2 : timestampToSeconds k2.timestamp with _ | t2 <;>
      rcases hr : planSegmentsAux (k2 :: rest2) with _ | segs2 <;>
      simp only [planSegmentsAux, hk, hk2, hr, Option.some.injEq, reduceCtorEq] at h
    exact ⟨_, _, h.symm, rfl⟩

/-- Adjacency: each segment's end is the next segment's start. -/
lemma planSegmentsAux_adjacent (kfs : List Keyframe) (segs : List Segment)
    (h : planSegmentsAux kfs = some segs) :
    ∀ (i : ℕ) (a b : Segment), segs[i]? = some a → segs[i + 1]? = some b →
      a.stop = some b.start := by
  induction kfs generalizing segs with
  | nil =>
    simp only [planSegmentsAux, Option.some.injEq] at h
    subst h
    intro i a b ha _
    exact absurd ha (by simp)
  | cons k0 rest ih =>
    cases rest with
    | nil =>
      rcases hk0 : timestampToSeconds k0.timestamp with _ | t <;>
        simp only [planSegmentsAux, hk0, Option.some.injEq, reduceCtorEq] at h
      subst h
      intro i a b ha hb
      cases i with
      | zero => exact absurd hb (by simp)
      | succ j => exact absurd hb (by simp)
    | cons k2 rest2 =>
      rcases hk0 : timestampToSeconds k0.timestamp with _ | t <;>
        rcases hk2 : timestampToSeconds k2.timestamp with _ | t2 <;>
        rcases hr : planSegmentsAux (k2 :: rest2) with _ | segs2 <;>
        simp only [planSegmentsAux, hk0, hk2, hr, Option.some.injEq, reduceCtorEq] at h
      subst h
      intro i a b ha hb
      cases i with
      | zero =>
        simp only [List.getElem?_cons_zero, Option.some.injEq,
          List.getElem?_cons_succ] at ha hb
        obtain ⟨a2, tl2, htl, hstart⟩ := planSegmentsAux_head k2 rest2 segs2 hr
        subst htl
        simp only [List.getElem?_cons_zero, Option.some.injEq] at hb
        rw [hk2] at hstart
        simp only [Option.some.injEq] at hstart
        rw [← ha, ← hb]
        show some t2 = some a2.start
        rw [hstart]
      | succ j =>
        simp only [List.getElem?_cons_succ] at ha hb
        exact ih segs2 hr j a b ha hb

/-- The last planned segment, and only it, has an open end. -/
lemma planSegmentsAux_last (kfs : List Keyframe) (segs : List Segment)
    (h : planSegmentsAux kfs = some segs) :
    ∀ (i : ℕ) (a : Segment), segs[i]? = some a → (a.stop = none ↔ i + 1 = segs.length) := by
  induction kfs generalizing segs with
  | nil =>
    simp only [planSegmentsAux, Option.some.injEq] at h
    subst h
    intro i a ha
    exact absurd ha (by simp)
  | cons k0 rest ih =>
    cases rest with
    | nil =>
      rcases hk0 : timestampToSeconds k0.timestamp with _ | t <;>
        simp only [planSegmentsAux, hk0, Option.some.injEq, reduceCtorEq] at h
      subst h
      intro i a ha
      cases i with
      | zero =>
        simp only [List.getElem?_cons_zero, Option.some.injEq] at ha
        rw [← ha]
        simp
      | succ j => exact absurd ha (by simp)
    | cons k2 rest2 =>
      rcases hk0 : timestampToSeconds k0.timestamp with _ | t <;>
        rcases hk2 : timestampToSeconds k2.timestamp with _ | t2 <;>
        rcases hr : planSegmentsAux (k2 :: rest2) with _ | segs2 <;>
        simp only [planSegmentsAux, hk0, hk2, hr, Option.some.injEq, reduceCtorEq] at h
      have hlen2 : segs2.length = rest2.length + 1 :=
        planSegmentsAux_length (k2 :: rest2) segs2 hr
      subst h
      intro i a ha
      cases i with
      | zero =>
        simp only [List.getElem?_cons_zero, Option.some.injEq] at ha
        rw [← ha]
        simp only [List.length_cons]
        constructor
        · intro hno; exact absurd hno (by simp)
        · intro hlen; omega
      | succ j =>
        simp only [List.getElem?_cons_succ] at ha
        simp only [List.length_cons]
        rw [ih segs2 hr j a ha]
        omega

/-- C1: for every keyframe list of length n with strictly increasing
timestamps, the planner produces exactly n segments in keyframe order;
segment i's start is keyframe i's parsed timestamp, segment i's end equals
segment (i+1)'s start for i below n-1, and the last segment's end is open
(none). -/
theorem claim1_segment_planner (kfs : List Keyframe) (times : List ℚ)
    (hparse : parseTimes kfs = some times)
    (_hmono : times.Chain' (fun a b => a < b)) :
    ∃ segs, planSegmentsAux kfs = some segs ∧
      segs.length = kfs.length ∧
      (∀ (i : ℕ) (k : Keyframe) (a : Segment), kfs[i]? = some k → segs[i]? = some a →
        timestampToSeconds k.timestamp = some a.start) ∧
      (∀ (i : ℕ) (a b : Segment), segs[i]? = some a → segs[i + 1]? = some b →
        a.stop = some b.start) ∧
      (∀ (i : ℕ) (a : Segment), segs[i]? = some a → (a.stop = none ↔ i + 1 = segs.length)) := by
  obtain ⟨segs, hsegs⟩ := planSegmentsAux_isSome kfs times hparse
  exact ⟨segs, hsegs, planSegmentsAux_length kfs segs hsegs,
    fun i k a hk ha => (planSegmentsAux_start kfs segs hsegs i k a hk ha).1,
    planSegmentsAux_adjacent kfs segs hsegs,
    planSegmentsAux_last kfs segs hsegs⟩

theorem claim1_witness :
    ∃ segs,
      planSegmentsAux [⟨("00:00.000"), 0, ("a")⟩, ⟨("00:04.000"), 500, ("b")⟩] = some segs ∧
      segs.length = ([⟨("00:00.000"), 0, ("a")⟩, ⟨("00:04.000"), 500, ("b")⟩] : List Keyframe).length ∧
      (∀ (i : ℕ) (k : Keyframe) (a : Segment),
        ([⟨("00:00.000"), 0, ("a")⟩, ⟨("00:04.000"), 500, ("b")⟩] : List Keyframe)[i]? = some k →
        segs[i]? = some a → timestampToSeconds k.timestamp = some a.start) ∧
      (∀ (i : ℕ) (a b : Segment), segs[i]? = some a → segs[i + 1]? = some b →
        a.stop = some b.start) ∧
      (∀ (i : ℕ) (a : Segment), segs[i]? = some a → (a.stop = none ↔ i + 1 = segs.length)) :=
  claim1_segment_planner _ [0, 4]
    (by
      have h1 : timestampToSeconds ("00:00.000") = some 0 := by
        rw [timestampToSeconds_eval _ 0 0 0 (by decide)]; norm_num
      have h2 : timestampToSeconds ("00:04.000") = some 4 := by
        rw [timestampToSeconds_eval _ 0 4 0 (by decide)]; norm_num
      simp [parseTimes, h1, h2])
    (by norm_num [List.chain'_cons, List.chain'_singleton])

/-!  Crop geometry.  The local backend (utils.py lines 190-199) computes
crop_width = int(video_height * 9/16); 9/16 is exactly representable as a
binary float and the product is exact for all realistic heights, so int()
truncation is Nat floor division.  The cloud backend
(gcp_transcoder.py lines 87-98) floors the crop width and height to even
values and clamps x1 into [0, max(0, width - crop_width_even)]. -/

/-- crop_width = int(video_height * 9/16) (utils.py line 193,
video-vert.py line 112). -/
def cropWidth (h : ℕ) : ℕ := h * 9 / 16

/-- crop_width_even = (crop_width // 2) * 2 (gcp_transcoder.py line 88). -/
def cropWidthEven (cw : ℕ) : ℕ := cw / 2 * 2

/-- height_even = (video_height // 2) * 2 (gcp_transcoder.py line 89). -/
def heightEven (h : ℕ) : ℕ := h / 2 * 2

/-- max_x1 = max(0, video_width - crop_width_even) (gcp_transcoder.py line 93). -/
def maxX1 (w cwe : ℕ) : ℤ := max 0 ((w : ℤ) - (cwe : ℤ))

/-- x1_clamped = max(0, min(x1, max_x1)) (gcp_transcoder.py line 94). -/
def clampX1 (x mx : ℤ) : ℤ := max 0 (min x mx)

/-- right_pixels = int(max(0, video_width - (x1_clamped + crop_width_even)))
(gcp_transcoder.py line 98). -/
def rightPixels (w : ℕ) (x1c : ℤ) (cwe : ℕ) : ℤ := max 0 ((w : ℤ) - (x1c + (cwe : ℤ)))

/-- CROP_Y = 0 (utils.py line 18). -/
def cropY : ℕ := 0

/-- The local crop filter string (utils.py line 234):
crop=crop_width:video_height:x1:CROP_Y. -/
def cropFilter (w h : ℕ) (x : ℤ) : String :=
  "crop=" ++ toString w ++ (":") ++ toString h ++ (":") ++ toString x ++ (":") ++ toString cropY

/-- C2 counterexample: at height 1080 the crop width floor(1080 * 9/16)
used for local encoding is 607, which is odd - refuting that the encode
crop width floor(h * 9/16) is always divisible by 2 - and the local crop
filter passes an out-of-range x1 (5000 on a 1920-wide source) through to
the encoder unclamped. -/
theorem claim2_counterexample :
    cropWidth 1080 = 607 ∧ ¬(2 ∣ cropWidth 1080) ∧
    cropFilter (cropWidth 1080) 1080 5000 = ("crop=607:1080:5000:0") ∧
    maxX1 1920 (cropWidthEven (cropWidth 1080)) < 5000 := by
  refine ⟨rfl, by decide, ?_, by decide⟩
  rfl

/-- C2 (amended): the evened crop width (crop_width // 2) * 2 used by the
cloud encoder is always divisible by 2, and the cloud encoder clamps each
keyframe's x1 into [0, max(0, width - crop_width_even)] before the encode
job is built; the raw crop width floor(h * 9/16) itself is what the local
encoder uses (607 at height 1080, odd, with x1 passed through unclamped). -/
theorem claim2_geometry (w h : ℕ) (x : ℤ) :
    2 ∣ cropWidthEven (cropWidth h) ∧
    0 ≤ clampX1 x (maxX1 w (cropWidthEven (cropWidth h))) ∧
    clampX1 x (maxX1 w (cropWidthEven (cropWidth h))) ≤
      maxX1 w (cropWidthEven (cropWidth h)) ∧
    cropWidth 1080 = 607 ∧ cropWidthEven (cropWidth 1080) = 606 := by
  refine ⟨⟨cropWidth h / 2, by simp [cropWidthEven, Nat.mul_comm]⟩, le_max_left 0 _, ?_, rfl, rfl⟩
  exact max_le (le_max_left 0 _) (min_le_right x _)

/-- One argument of a subprocess command line: a literal string, or a
numeric value whose textual rendering (Python str of a float) we keep
symbolic as the exact rational. -/
inductive Arg where
  | s (v : String)
  | q (v : ℚ)
deriving DecidableEq

/-- The fixed part of the per-segment FFmpeg command
(utils.py lines 230-244), in source order. -/
def baseSegmentCommand (inputFile : String) (cw vh : ℕ) (sg : Segment)
    (segFile : String) : List Arg :=
  [Arg.s ("ffmpeg"), Arg.s ("-i"), Arg.s inputFile,
   Arg.s ("-ss"), Arg.q sg.start,
   Arg.s ("-vf"), Arg.s (cropFilter cw vh sg.x1),
   Arg.s ("-c:v"), Arg.s ("libx264"),
   Arg.s ("-crf"), Arg.s ("23"),
   Arg.s ("-preset"), Arg.s ("veryfast"),
   Arg.s ("-pix_fmt"), Arg.s ("yuv420p"),
   Arg.s ("-c:a"), Arg.s ("aac"),
   Arg.s ("-b:a"), Arg.s ("128k"),
   Arg.s ("-avoid_negative_ts"), Arg.s ("make_zero"),
   Arg.s ("-y"), Arg.s segFile]

/-- The complete per-segment FFmpeg command: when the segment is bounded,
the duration flag and value are spliced in by the two
command.insert(-2, _) calls of utils.py lines 247-250 (insert before the
second-to-last element); for the open-ended last segment nothing is added. -/
def buildSegmentCommand (inputFile : String) (cw vh : ℕ) (sg : Segment)
    (segFile : String) : List Arg :=
  let cmd := baseSegmentCommand inputFile cw vh sg segFile
  match sg.stop with
  | none => cmd
  | some e =>
    let d := e - sg.start
    let cmd1 := cmd.insertIdx (cmd.length - 2) (Arg.s ("-t"))
    cmd1.insertIdx (cmd1.length - 2) (Arg.q d)

/-- One edit atom of a cloud Transcoder segment job
(gcp_transcoder.py lines 103-109).  The seconds/nanos pair of the proto is
modelled as the exact rational offset it encodes. -/
structure EditAtom where
  key : String
  inputs : List String
  startOff : Option ℚ
  endOff : Option ℚ
deriving DecidableEq

/-- Building the edit atom: start_time_offset is the start when given;
end_time_offset is (start or 0) + duration when a duration is given, and
is omitted (none) otherwise. -/
def buildEditAtom (startS durS : Option ℚ) : EditAtom :=
  { key := ("atom0"), inputs := [("input0")], startOff := startS,
    endOff := durS.map (fun d => startS.getD 0 + d) }

/-- C4: for every bounded (non-final) segment the encode request carries a
trim window of duration next start minus this start - locally as the -t
flag inserted before the output arguments, in the cloud as an
end_time_offset of start + duration - while for the open-ended final
segment the duration flag / end_time_offset is omitted entirely. -/
theorem claim4_trim_window :
    (∀ (inputFile segFile r : String) (cw vh : ℕ) (st e : ℚ) (x : ℤ),
      buildSegmentCommand inputFile cw vh ⟨st, some e, x, r⟩ segFile =
        [Arg.s ("ffmpeg"), Arg.s ("-i"), Arg.s inputFile,
         Arg.s ("-ss"), Arg.q st,
         Arg.s ("-vf"), Arg.s (cropFilter cw vh x),
         Arg.s ("-c:v"), Arg.s ("libx264"),
         Arg.s ("-crf"), Arg.s ("23"),
         Arg.s ("-preset"), Arg.s ("veryfast"),
         Arg.s ("-pix_fmt"), Arg.s ("yuv420p"),
         Arg.s ("-c:a"), Arg.s ("aac"),
         Arg.s ("-b:a"), Arg.s ("128k"),
         Arg.s ("-avoid_negative_ts"), Arg.s ("make_zero"),
         Arg.s ("-t"), Arg.q (e - st),
         Arg.s ("-y"), Arg.s segFile]) ∧
    (∀ (inputFile segFile r : String) (cw vh : ℕ) (st : ℚ) (x : ℤ),
      buildSegmentCommand inputFile cw vh ⟨st, none, x, r⟩ segFile =
        baseSegmentCommand inputFile cw vh ⟨st, none, x, r⟩ segFile) ∧
    (∀ (kfs : List Keyframe) (segs : List Segment) (i : ℕ) (a b : Segment),
      planSegmentsAux kfs = some segs → segs[i]? = some a → segs[i + 1]? = some b →
      a.stop = some b.start) ∧
    (∀ st d : ℚ, buildEditAtom (some st) (some d) =
      ⟨("atom0"), [("input0")], some st, some (st + d)⟩) ∧
    (∀ ost : Option ℚ, (buildEditAtom ost none).endOff = none) := by
  refine ⟨fun inputFile segFile r cw vh st e x => rfl,
          fun inputFile segFile r cw vh st x => rfl,
          fun kfs segs i a b h ha hb => planSegmentsAux_adjacent kfs segs h i a b ha hb,
          fun st d => rfl,
          fun ost => rfl⟩

theorem claim4_witness :
    (Segment.mk 5 (some 7) 0 ("")).stop = some (Segment.mk 7 none 3 ("")).start :=
  claim4_trim_window.2.2.1
    [⟨("00:05.000"), 0, ("")⟩, ⟨("00:07.000"), 3, ("")⟩]
    [⟨5, some 7, 0, ("")⟩, ⟨7, none, 3, ("")⟩] 0 _ _
    (by
      have h1 : timestampToSeconds ("00:05.000") = some 5 := by
        rw [timestampToSeconds_eval _ 0 5 0 (by decide)]; norm_num
      have h2 : timestampToSeconds ("00:07.000") = some 7 := by
        rw [timestampToSeconds_eval _ 0 7 0 (by decide)]; norm_num
      simp [planSegmentsAux, h1, h2])
    rfl rfl

/-- C7 (code bug): nothing in the pipeline validates timestamp
monotonicity - there is no NonMonotonicTimestampError anywhere in the
sources - so the non-monotonic keyframes at 5.0s then 2.0s are planned
as-is and the first segment's encode command is issued carrying the
negative duration -t (2 - 5) = -3 seconds, exactly what the specification
says must not happen. -/
theorem claim7_negative_duration :
    planSegmentsAux [⟨("00:05.000"), 0, ("")⟩, ⟨("00:02.000"), 0, ("")⟩] =
      some [⟨5, some 2, 0, ("")⟩, ⟨2, none, 0, ("")⟩] ∧
    buildSegmentCommand ("in.mp4") 607 1080 ⟨5, some 2, 0, ("")⟩ ("segment_000.mp4") =
      [Arg.s ("ffmpeg"), Arg.s ("-i"), Arg.s ("in.mp4"),
       Arg.s ("-ss"), Arg.q 5,
       Arg.s ("-vf"), Arg.s ("crop=607:1080:0:0"),
       Arg.s ("-c:v"), Arg.s ("libx264"),
       Arg.s ("-crf"), Arg.s ("23"),
       Arg.s ("-preset"), Arg.s ("veryfast"),
       Arg.s ("-pix_fmt"), Arg.s ("yuv420p"),
       Arg.s ("-c:a"), Arg.s ("aac"),
       Arg.s ("-b:a"), Arg.s ("128k"),
       Arg.s ("-avoid_negative_ts"), Arg.s ("make_zero"),
       Arg.s ("-t"), Arg.q (2 - 5),
       Arg.s ("-y"), Arg.s ("segment_000.mp4")] ∧
    (2 - 5 : ℚ) < 0 := by
  refine ⟨?_, ?_, by norm_num⟩
  · have h1 : timestampToSeconds ("00:05.000") = some 5 := by
      rw [timestampToSeconds_eval _ 0 5 0 (by decide)]; norm_num
    have h2 : timestampToSeconds ("00:02.000") = some 2 := by
      rw [timestampToSeconds_eval _ 0 2 0 (by decide)]; norm_num
    simp [planSegmentsAux, h1, h2]
  · rfl

/-- One manifest line of the local concat list (utils.py line 278):
file QUOTE path QUOTE followed by a newline.  The single-quote character
is written by code point. -/
def manifestEntry (p : String) : String :=
  "file " ++ String.singleton (Char.ofNat 39) ++ p ++ String.singleton (Char.ofNat 39) ++ "\n"

/-- The manifest lines written, in loop order (utils.py lines 276-278). -/
def writeManifest : List String → List String
  | [] => []
  | p :: rest => manifestEntry p :: writeManifest rest

/-- One input entry of the cloud concat job (gcp_transcoder.py line 184). -/
structure ConcatInput where
  key : String
  uri : String
deriving DecidableEq

/-- One edit atom of the cloud concat job (gcp_transcoder.py line 185). -/
structure ConcatEdit where
  key : String
  inputs : List String
deriving DecidableEq

/-- Input key for index idx (gcp_transcoder.py line 183). -/
def inKey (idx : ℕ) : String := "in" ++ toString idx

/-- Edit-atom key for index idx (gcp_transcoder.py line 185). -/
def atomKey (idx : ℕ) : String := "atom" ++ toString idx

/-- The enumerate loop of create_concat_job (gcp_transcoder.py
lines 180-185): one input and one edit atom per segment URI, in order,
the atom at index idx referencing exactly its own input key. -/
def buildConcatLists : ℕ → List String → List ConcatInput × List ConcatEdit
  | _, [] => ([], [])
  | idx, u :: rest =>
    let (ins, eds) := buildConcatLists (idx + 1) rest
    (⟨inKey idx, u⟩ :: ins, ⟨atomKey idx, [inKey idx]⟩ :: eds)

/-- The concat job lists built from index 0. -/
def createConcatJobLists (uris : List String) : List ConcatInput × List ConcatEdit :=
  buildConcatLists 0 uris

lemma writeManifest_eq_map (files : List String) :
    writeManifest files = files.map manifestEntry := by
  induction files with
  | nil => rfl
  | cons p rest ih => simp [writeManifest, ih]

lemma buildConcatLists_fst (uris : List String) :
    ∀ (k i : ℕ), ((buildConcatLists k uris).1)[i]? =
      (uris[i]?).map (fun u => ⟨inKey (k + i), u⟩) ∧
    ((buildConcatLists k uris).2)[i]? =
      (uris[i]?).map (fun _ => ⟨atomKey (k + i), [inKey (k + i)]⟩) ∧
    ((buildConcatLists k uris).1).length = uris.length ∧
    ((buildConcatLists k uris).2).length = uris.length := by
  induction uris with
  | nil => intro k i; simp [buildConcatLists]
  | cons u rest ih =>
    intro k i
    cases i with
    | zero => simp [buildConcatLists, (ih (k + 1) 0).2.2.1, (ih (k + 1) 0).2.2.2]
    | succ j =>
      have hj := ih (k + 1) j
      have harith : k + 1 + j = k + (j + 1) := by omega
      simp only [buildConcatLists, List.getElem?_cons_succ, List.length_cons]
      rw [harith] at hj
      exact ⟨hj.1, hj.2.1, by simp [hj.2.2.1], by simp [hj.2.2.2]⟩

/-- C3: concatenation preserves artifact order.  For a non-empty artifact
list the local manifest has exactly one line per artifact, in input order,
each line naming that artifact's path; the cloud concat job lists one
input and one sequential edit atom per segment URI, in input order, the
atom at index i referencing exactly the input key that carries URI i. -/
theorem claim3_concat_order (files uris : List String) (i : ℕ) (p u : String)
    (_hne : files ≠ []) (hp : files[i]? = some p) (hu : uris[i]? = some u) :
    (writeManifest files).length = files.length ∧
    (writeManifest files)[i]? = some (manifestEntry p) ∧
    ((createConcatJobLists uris).1).length = uris.length ∧
    ((createConcatJobLists uris).2).length = uris.length ∧
    ((createConcatJobLists uris).1)[i]? = some ⟨inKey i, u⟩ ∧
    ((createConcatJobLists uris).2)[i]? = some ⟨atomKey i, [inKey i]⟩ := by
  have hb := buildConcatLists_fst uris 0 i
  have h0 : 0 + i = i := by omega
  rw [h0] at hb
  refine ⟨by simp [writeManifest_eq_map], ?_, hb.2.2.1, hb.2.2.2, ?_, ?_⟩
  · simp [writeManifest_eq_map, hp]
  · simp only [createConcatJobLists]
    rw [hb.1, hu]; rfl
  · simp only [createConcatJobLists]
    rw [hb.2.1, hu]; rfl

theorem claim3_witness :
    (writeManifest [("a.mp4"), ("b.mp4"), ("c.mp4")]).length = 3 ∧
    (writeManifest [("a.mp4"), ("b.mp4"), ("c.mp4")])[1]? =
      some (manifestEntry ("b.mp4")) ∧
    ((createConcatJobLists
        [("gs://x/0/sd.mp4"), ("gs://x/1/sd.mp4"), ("gs://x/2/sd.mp4")]).1).length = 3 ∧
    ((createConcatJobLists
        [("gs://x/0/sd.mp4"), ("gs://x/1/sd.mp4"), ("gs://x/2/sd.mp4")]).2).length = 3 ∧
    ((createConcatJobLists
        [("gs://x/0/sd.mp4"), ("gs://x/1/sd.mp4"), ("gs://x/2/sd.mp4")]).1)[1]? =
      some ⟨inKey 1, ("gs://x/1/sd.mp4")⟩ ∧
    ((createConcatJobLists
        [("gs://x/0/sd.mp4"), ("gs://x/1/sd.mp4"), ("gs://x/2/sd.mp4")]).2)[1]? =
      some ⟨atomKey 1, [inKey 1]⟩ :=
  claim3_concat_order [("a.mp4"), ("b.mp4"), ("c.mp4")]
    [("gs://x/0/sd.mp4"), ("gs://x/1/sd.mp4"), ("gs://x/2/sd.mp4")] 1
    ("b.mp4") ("gs://x/1/sd.mp4") (by simp) rfl rfl

/-- Zero-padded three-digit index, modelling the Python format spec 03d
(utils.py line 223). -/
def pad3 (i : ℕ) : String :=
  if i < 10 then "00" ++ toString i
  else if i < 100 then "0" ++ toString i
  else toString i

/-- Per-segment temporary file path (utils.py line 223). -/
def segmentFileName (tempDir : String) (i : ℕ) : String :=
  tempDir ++ "/segment_" ++ pad3 i ++ ".mp4"

/-- The encode loop of create_video_segments (utils.py lines 220-263):
one FFmpeg command and one segment file per planned segment, in order.
Each subprocess run is modelled as succeeding; what the claims under
study need is which commands are issued and which files accumulate. -/
def buildAllSegmentCommands (inputFile tempDir : String) (cw vh : ℕ) :
    ℕ → List Segment → List (List Arg) × List String
  | _, [] => ([], [])
  | i, sg :: rest =>
    let f := segmentFileName tempDir i
    let (cs, fs) := buildAllSegmentCommands inputFile tempDir cw vh (i + 1) rest
    (buildSegmentCommand inputFile cw vh sg f :: cs, f :: fs)

/-- create_video_segments (utils.py lines 184-263): resolve the crop size
from the optional resolution (falling back to the CROP_WIDTH = 607 and
CROP_HEIGHT = 1080 constants), plan the segments, then build the encode
commands.  none models the ValueError raised by a failing timestamp
parse. -/
def createVideoSegmentsModel (inputFile : String) (kfs : List Keyframe)
    (tempDir : String) (res : Option (ℕ × ℕ)) :
    Option (List (List Arg) × List String) :=
  let cwvh : ℕ × ℕ :=
    match res with
    | some (_, h) => (cropWidth h, h)
    | none => (607, 1080)
  match planSegmentsAux kfs with
  | some segs => some (buildAllSegmentCommands inputFile tempDir cwvh.1 cwvh.2 0 segs)
  | none => none

/-- Observable outcome of one local pipeline run. -/
structure LocalRunOutcome where
  encodeCommands : List (List Arg)
  concatInvoked : Bool
  success : Bool
deriving DecidableEq

/-- process_video_segments (utils.py lines 311-338): create the segments,
and if the returned file list is falsy (in particular the empty list
obtained from an empty keyframe list) report failure without ever invoking
concatenation; otherwise concatenate.  Subprocesses are modelled as
succeeding; none models a propagating parse ValueError. -/
def processVideoSegmentsModel (inputFile tempDir : String) (kfs : List Keyframe)
    (res : Option (ℕ × ℕ)) : Option LocalRunOutcome :=
  match createVideoSegmentsModel inputFile kfs tempDir res with
  | none => none
  | some (cmds, files) =>
    if files.isEmpty then some ⟨cmds, false, false⟩
    else some ⟨cmds, true, true⟩

/-- C8 counterexample: on an empty keyframe list the pipeline does not
raise any error at all - there is no EmptyInputError in the sources - it
returns normally (the some outcome, not the none that models a raised
exception) with the generic failure result, zero encode commands and no
concatenation. -/
theorem claim8_counterexample :
    processVideoSegmentsModel ("in.mp4") ("tmp") [] (some (1920, 1080)) =
      some ⟨[], false, false⟩ := rfl

/-- C8 (amended): for an empty keyframe list no encode command is ever
issued and concatenation is never invoked - create_video_segments returns
an empty file list, which process_video_segments treats as failure - but
the failure is signalled by a False return through the generic empty-list
check, not by an EmptyInputError exception (no such error exists in the
code; the run raises nothing). -/
theorem claim8_empty_input (inputFile tempDir : String) (res : Option (ℕ × ℕ)) :
    processVideoSegmentsModel inputFile tempDir [] res = some ⟨[], false, false⟩ := by
  rcases res with _ | ⟨w, h⟩ <;> rfl

/-- State of a cloud transcoder job as seen by one poll
(gcp_transcoder.py lines 42-47): succeeded and failed are the terminal
states; running stands for every other state. -/
inductive JobPollState where
  | succeeded
  | failed
  | running
deriving DecidableEq

/-- Result of the polling loop. -/
inductive WaitOutcome where
  | done (iter : ℕ)
  | jobFailed (iter : ℕ)
  | timedOut (iter : ℕ)
  | fuelExhausted
deriving DecidableEq

/-- The fixed sleep interval between polls (gcp_transcoder.py line 50). -/
def pollIntervalSeconds : ℚ := 5

/-- The default bounded wall-clock timeout (gcp_transcoder.py line 39). -/
def defaultTimeoutSeconds : ℚ := 3600

/-- _wait_for_job_completion (gcp_transcoder.py lines 39-50) as a function
of the poll trace: at iteration k the job state poll k is read; SUCCEEDED
returns, FAILED raises (jobFailed) immediately, otherwise the elapsed
wall-clock reading elapsed k is compared against the timeout and the loop
raises TimeoutError or sleeps the fixed interval and re-polls.  fuel only
bounds the unrolling of the source while True loop. -/
def waitForJobAux (poll : ℕ → JobPollState) (elapsed : ℕ → ℚ) (timeout : ℚ) :
    ℕ → ℕ → WaitOutcome
  | 0, _ => WaitOutcome.fuelExhausted
  | fuel + 1, k =>
    match poll k with
    | JobPollState.succeeded => WaitOutcome.done k
    | JobPollState.failed => WaitOutcome.jobFailed k
    | JobPollState.running =>
      if timeout < elapsed k then WaitOutcome.timedOut k
      else waitForJobAux poll elapsed timeout fuel (k + 1)

/-- output_gcs_prefix.rstrip of the slash character
(gcp_transcoder.py line 162). -/
def rstripSlash (p : String) : String :=
  String.mk ((p.data.reverse.dropWhile (fun c => c == '/')).reverse)

/-- The well-known output location of a segment job
(gcp_transcoder.py line 162): prefix with trailing slashes stripped,
then /sd.mp4. -/
def segmentOutputUri (outPre : String) : String := rstripSlash outPre ++ "/sd.mp4"

/-- Error outcomes of waiting on a cloud job. -/
inductive CloudJobError where
  | jobFailed (iter : ℕ)
  | timedOut (iter : ℕ)
  | fuelExhausted
deriving DecidableEq

/-- The tail of create_cropped_segment_job (gcp_transcoder.py
lines 160-162): wait for the job, then return the well-known output
location; a FAILED poll raises RuntimeError and an exceeded timeout
raises TimeoutError, neither of which is retried. -/
def cloudSegmentResult (poll : ℕ → JobPollState) (elapsed : ℕ → ℚ) (timeout : ℚ)
    (fuel : ℕ) (outPre : String) : Except CloudJobError String :=
  match waitForJobAux poll elapsed timeout fuel 0 with
  | WaitOutcome.done _ => Except.ok (segmentOutputUri outPre)
  | WaitOutcome.jobFailed k => Except.error (CloudJobError.jobFailed k)
  | WaitOutcome.timedOut k => Except.error (CloudJobError.timedOut k)
  | WaitOutcome.fuelExhausted => Except.error CloudJobError.fuelExhausted

/-- Running the loop past d consecutive in-time running polls just moves
the start index. -/
lemma waitForJobAux_steps (poll : ℕ → JobPollState) (elapsed : ℕ → ℚ) (timeout : ℚ) :
    ∀ (d fuel k : ℕ), d ≤ fuel →
      (∀ j, k ≤ j → j < k + d → poll j = JobPollState.running ∧ elapsed j ≤ timeout) →
      waitForJobAux poll elapsed timeout fuel k =
        waitForJobAux poll elapsed timeout (fuel - d) (k + d) := by
  intro d
  induction d with
  | zero => intro fuel k _ _; rfl
  | succ d ih =>
    intro fuel k hd hrun
    cases fuel with
    | zero => omega
    | succ fuel2 =>
      have hk := hrun k (le_refl k) (by omega)
      have hnt : ¬ timeout < elapsed k := not_lt.mpr hk.2
      have hstep : waitForJobAux poll elapsed timeout (fuel2 + 1) k =
          waitForJobAux poll elapsed timeout fuel2 (k + 1) := by
        simp [waitForJobAux, hk.1, hnt]
      rw [hstep, ih fuel2 (k + 1) (by omega)
        (fun j hj1 hj2 => hrun j (by omega) (by omega))]
      have e1 : fuel2 - d = fuel2 + 1 - (d + 1) := by omega
      have e2 : k + 1 + d = k + (d + 1) := by omega
      rw [e1, e2]

/-- C9: the cloud job wait polls the job repeatedly (sleeping a fixed
interval between polls) until a terminal state: if poll k is the first
terminal or over-time event - every earlier poll running and within the
timeout - then SUCCEEDED at k makes the call return the well-known output
location, FAILED at k raises the encode error immediately, and a running
poll at k with the elapsed wall clock beyond the bounded timeout raises
TimeoutError; neither failure outcome is retried (the result is fixed at
iteration k). -/
theorem claim9_job_polling (poll : ℕ → JobPollState) (elapsed : ℕ → ℚ)
    (timeout : ℚ) (k fuel : ℕ) (outPre : String)
    (hfuel : k < fuel)
    (hbefore : ∀ j, j < k → poll j = JobPollState.running ∧ elapsed j ≤ timeout) :
    (poll k = JobPollState.succeeded →
      cloudSegmentResult poll elapsed timeout fuel outPre =
        Except.ok (segmentOutputUri outPre)) ∧
    (poll k = JobPollState.failed →
      cloudSegmentResult poll elapsed timeout fuel outPre =
        Except.error (CloudJobError.jobFailed k)) ∧
    (poll k = JobPollState.running → timeout < elapsed k →
      cloudSegmentResult poll elapsed timeout fuel outPre =
        Except.error (CloudJobError.timedOut k)) := by
  have hsteps : waitForJobAux poll elapsed timeout fuel 0 =
      waitForJobAux poll elapsed timeout (fuel - k) k := by
    have := waitForJobAux_steps poll elapsed timeout k fuel 0 (by omega)
      (fun j hj1 hj2 => hbefore j (by omega))
    simpa using this
  obtain ⟨fuel2, hfuel2⟩ : ∃ fuel2, fuel - k = fuel2 + 1 :=
    ⟨fuel - k - 1, by omega⟩
  rw [hfuel2] at hsteps
  refine ⟨fun hs => ?_, fun hf => ?_, fun hr ht => ?_⟩
  · simp [cloudSegmentResult, hsteps, waitForJobAux, hs]
  · simp [cloudSegmentResult, hsteps, waitForJobAux, hf]
  · simp [cloudSegmentResult, hsteps, waitForJobAux, hr, ht]

theorem claim9_witness :
    cloudSegmentResult
      (fun j => if j < 2 then JobPollState.running else JobPollState.succeeded)
      (fun j => pollIntervalSeconds * j) defaultTimeoutSeconds 4 ("gs://bucket/out/") =
      Except.ok (segmentOutputUri ("gs://bucket/out/")) :=
  (claim9_job_polling
    (fun j => if j < 2 then JobPollState.running else JobPollState.succeeded)
    (fun j => pollIntervalSeconds * j) defaultTimeoutSeconds 2 4 ("gs://bucket/out/")
    (by omega)
    (by
      intro j hj
      interval_cases j <;>
        exact ⟨rfl, by norm_num [pollIntervalSeconds, defaultTimeoutSeconds]⟩)).1
    rfl

end VideoVert
